import Mathlib

/-!
# Verification of the codex-14499 schema validator and color transform

Shallow embedding of `src/color_utils.py` and `src/scripts/validate_codex.py`.
Python floats are modelled as rationals (`ℚ`); Python's JSON-like values as the
inductive `Json`; Python runtime errors (`AttributeError`, `TypeError`) as the
`Except` error branch where the embedded code can raise.
-/

namespace Codex

/-! ## Color transform (`src/color_utils.py`) -/

/-- `clamp(value, low, high)`: clamp value into `[low, high]`. -/
def clamp (value low high : ℚ) : ℚ :=
  max low (min high value)

/-- `ycocg_to_rgb(y, co, cg)`: fixed linear reconstruction, each channel
clamped into `[0, 1]`. -/
def ycocg_to_rgb (y co cg : ℚ) : ℚ × ℚ × ℚ :=
  (clamp (y + co - cg) 0 1, clamp (y + cg) 0 1, clamp (y - co - cg) 0 1)

/-- Python's `x % m` on floats: floor-based modulo, `x - m * floor (x / m)`. -/
def pymod (x m : ℚ) : ℚ :=
  x - m * (⌊x / m⌋ : ℚ)

/-- `ycocg_to_hsl(y, co, cg)`: convert yCoCg to HSL while preserving
luminance (`l = clamp(y)`). -/
def ycocg_to_hsl (y co cg : ℚ) : ℚ × ℚ × ℚ :=
  let rgb := ycocg_to_rgb y co cg
  let r := rgb.1
  let g := rgb.2.1
  let b := rgb.2.2
  let max_c := max r (max g b)
  let min_c := min r (min g b)
  let delta := max_c - min_c
  let h :=
    if delta = 0 then (0 : ℚ)
    else if max_c = r then pymod ((g - b) / delta) 6
    else if max_c = g then (b - r) / delta + 2
    else (r - g) / delta + 4
  let h' := h / 6
  let l := clamp y 0 1
  let denom := 1 - |2 * l - 1|
  let s := if delta = 0 ∨ denom = 0 then (0 : ℚ) else clamp (delta / denom) 0 1
  (h', s, l)

theorem clamp01_nonneg (v : ℚ) : 0 ≤ clamp v 0 1 :=
  le_max_left 0 _

theorem clamp01_le_one (v : ℚ) : clamp v 0 1 ≤ 1 :=
  max_le (by norm_num) (min_le_left 1 v)

theorem pymod_nonneg (x : ℚ) : 0 ≤ pymod x 6 := by
  have h : (⌊x / 6⌋ : ℚ) ≤ x / 6 := Int.floor_le _
  unfold pymod
  nlinarith

theorem pymod_lt_six (x : ℚ) : pymod x 6 < 6 := by
  have h : x / 6 - 1 < (⌊x / 6⌋ : ℚ) := Int.sub_one_lt_floor _
  unfold pymod
  nlinarith

/-- C5: for all inputs (y, co, cg), `ycocg_to_hsl` returns (h, s, l) with each
of h, s, l within [0,1], and l equal to `clamp y` exactly — luminance is taken
directly from the input channel, never recomputed from (max_c+min_c)/2. -/
theorem ycocg_to_hsl_unit_range_and_luminance (y co cg : ℚ) :
    0 ≤ (ycocg_to_hsl y co cg).1 ∧ (ycocg_to_hsl y co cg).1 ≤ 1 ∧
    0 ≤ (ycocg_to_hsl y co cg).2.1 ∧ (ycocg_to_hsl y co cg).2.1 ≤ 1 ∧
    0 ≤ (ycocg_to_hsl y co cg).2.2 ∧ (ycocg_to_hsl y co cg).2.2 ≤ 1 ∧
    (ycocg_to_hsl y co cg).2.2 = clamp y 0 1 := by
  rcases hrgb : ycocg_to_rgb y co cg with ⟨r, g, b⟩
  have hl0 := clamp01_nonneg y
  have hl1 := clamp01_le_one y
  simp only [ycocg_to_hsl, hrgb]
  set M := max r (max g b) with hM
  set m := min r (min g b) with hm
  have hrM : r ≤ M := le_max_left _ _
  have hgM : g ≤ M := le_trans (le_max_left g b) (le_max_right r _)
  have hbM : b ≤ M := le_trans (le_max_right g b) (le_max_right r _)
  have hmr : m ≤ r := min_le_left _ _
  have hmg : m ≤ g := le_trans (min_le_right r _) (min_le_left g b)
  have hmb : m ≤ b := le_trans (min_le_right r _) (min_le_right g b)
  have hdnn : 0 ≤ M - m := by linarith
  refine ⟨?_, ?_, ?_, ?_, hl0, hl1, trivial⟩
  · split_ifs with hd h1 h2
    · norm_num
    · exact div_nonneg (pymod_nonneg _) (by norm_num)
    · have hdpos : 0 < M - m := lt_of_le_of_ne hdnn (Ne.symm hd)
      have key : -((b - r) / (M - m)) ≤ 1 := by
        rw [← neg_div]
        exact (div_le_one hdpos).mpr (by linarith)
      linarith
    · have hdpos : 0 < M - m := lt_of_le_of_ne hdnn (Ne.symm hd)
      have key : -((r - g) / (M - m)) ≤ 1 := by
        rw [← neg_div]
        exact (div_le_one hdpos).mpr (by linarith)
      linarith
  · split_ifs with hd h1 h2
    · norm_num
    · have := pymod_lt_six ((g - b) / (M - m))
      linarith
    · have hdpos : 0 < M - m := lt_of_le_of_ne hdnn (Ne.symm hd)
      have key : (b - r) / (M - m) ≤ 1 := (div_le_one hdpos).mpr (by linarith)
      linarith
    · have hdpos : 0 < M - m := lt_of_le_of_ne hdnn (Ne.symm hd)
      have key : (r - g) / (M - m) ≤ 1 := (div_le_one hdpos).mpr (by linarith)
      linarith
  · split_ifs with hd
    · norm_num
    · exact clamp01_nonneg _
  · split_ifs with hd
    · norm_num
    · exact clamp01_le_one _

/-- C9: `ycocg_to_hsl` maps the four specified concrete inputs exactly to the
specified outputs: gray (0.5,0,0) ↦ (0,0,0.5); black (0,0,0) ↦ (0,0,0); white
(1,0,0) ↦ (0,0,1); pure red (0.25,0.5,-0.25) ↦ (0,1,0.25), the red branch's
modulo wrapping the hue to the zero boundary. -/
theorem ycocg_to_hsl_concrete_values :
    ycocg_to_hsl (1/2) 0 0 = (0, 0, 1/2) ∧
    ycocg_to_hsl 0 0 0 = (0, 0, 0) ∧
    ycocg_to_hsl 1 0 0 = (0, 0, 1) ∧
    ycocg_to_hsl (1/4) (1/2) (-(1/4)) = (0, 1, 1/4) := by
  refine ⟨?_, ?_, ?_, ?_⟩ <;>
    norm_num [ycocg_to_hsl, ycocg_to_rgb, clamp, pymod, max_def, min_def,
      abs_eq_max_neg, Prod.ext_iff]

/-! ## JSON-like values (the validator's input domain) -/

/-- In-memory JSON-like values as produced by `json.load`: Python dicts
(insertion-ordered key/value lists), lists, strings, ints, floats (modelled as
rationals), booleans and `None`. -/
inductive Json : Type where
  | null : Json
  | bool (b : Bool) : Json
  | int (n : ℤ) : Json
  | num (q : ℚ) : Json
  | str (s : String) : Json
  | arr (items : List Json) : Json
  | obj (fields : List (String × Json)) : Json

/-- `type(value).__name__` for the JSON-like runtime types. -/
def pyTypeName : Json → String
  | .null => "NoneType"
  | .bool _ => "bool"
  | .int _ => "int"
  | .num _ => "float"
  | .str _ => "str"
  | .arr _ => "list"
  | .obj _ => "dict"

/-- Python truthiness of a JSON-like value (`if safety.get("motionOptIn"):`). -/
def pyTruthy : Json → Bool
  | .null => false
  | .bool b => b
  | .int n => n != 0
  | .num q => q != 0
  | .str s => s != ""
  | .arr xs => !xs.isEmpty
  | .obj kvs => !kvs.isEmpty

/-- The numeric value a Python `==`/`<` comparison sees: bools count as 0/1
(`True == 1`), ints and floats by value. -/
def numValue : Json → Option ℚ
  | .bool b => some (if b then 1 else 0)
  | .int n => some (n : ℚ)
  | .num q => some q
  | _ => none

/-- `isinstance(value, (int, float)) and not isinstance(value, bool)`:
the numeric value of a non-bool int or float. -/
def numNotBool : Json → Option ℚ
  | .int n => some (n : ℚ)
  | .num q => some q
  | _ => none

/-- `d[k]` / `d.get(k)` on an insertion-ordered dict. -/
def lookupJ (k : String) : List (String × Json) → Option Json
  | [] => none
  | (k', v) :: rest => if k' = k then some v else lookupJ k rest

/-- `k in d` on a dict. -/
def hasKeyJ (k : String) (kvs : List (String × Json)) : Bool :=
  (lookupJ k kvs).isSome

mutual
/-- Python `==` on JSON-like values: numeric kinds (bool/int/float) compare by
numeric value, strings by content, lists elementwise, dicts by key set and
per-key values; `None` only equals `None`. -/
def pyEq : Json → Json → Bool
  | .null, .null => true
  | .str s, .str t => s == t
  | .arr xs, .arr ys => pyEqList xs ys
  | .obj xs, .obj ys => xs.length == ys.length && pyEqFields xs ys
  | a, b =>
    match numValue a, numValue b with
    | some x, some y => x == y
    | _, _ => false

/-- Elementwise Python `==` on lists. -/
def pyEqList : List Json → List Json → Bool
  | [], [] => true
  | x :: xs, y :: ys => pyEq x y && pyEqList xs ys
  | _, _ => false

/-- Every field of the first dict is present with a `==` value in the second. -/
def pyEqFields : List (String × Json) → List (String × Json) → Bool
  | [], _ => true
  | (k, v) :: rest, ys =>
    (match lookupJ k ys with
     | some w => pyEq v w
     | none => false) && pyEqFields rest ys
end

/-- `value in enum_list`: Python membership via `==`. -/
def pyMem (v : Json) (l : List Json) : Bool :=
  l.any fun e => pyEq v e

/-! ## Regular expressions (the model of `re.search`) -/

/-- A regular expression, the model of the compiled form of a schema's
`pattern` string. -/
inductive Regex : Type where
  | emptySet : Regex
  | epsilon : Regex
  | char (c : Char) : Regex
  | anyChar : Regex
  | seq (a b : Regex) : Regex
  | alt (a b : Regex) : Regex
  | star (a : Regex) : Regex

/-- Does the regex accept the empty string? -/
def Regex.nullable : Regex → Bool
  | .emptySet => false
  | .epsilon => true
  | .char _ => false
  | .anyChar => false
  | .seq a b => a.nullable && b.nullable
  | .alt a b => a.nullable || b.nullable
  | .star _ => true

/-- Brzozowski derivative of a regex by one character. -/
def Regex.deriv : Regex → Char → Regex
  | .emptySet, _ => .emptySet
  | .epsilon, _ => .emptySet
  | .char c, d => if c = d then .epsilon else .emptySet
  | .anyChar, _ => .epsilon
  | .seq a b, d =>
    if a.nullable then .alt (.seq (a.deriv d) b) (b.deriv d) else .seq (a.deriv d) b
  | .alt a b, d => .alt (a.deriv d) (b.deriv d)
  | .star a, d => .seq (a.deriv d) (.star a)

/-- Whole-string match of a regex against a character list. -/
def Regex.rmatch (r : Regex) (cs : List Char) : Bool :=
  (cs.foldl Regex.deriv r).nullable

/-- Does the regex match some (possibly empty) leading segment of `cs`? -/
def matchesPref : Regex → List Char → Bool
  | r, [] => r.nullable
  | r, c :: cs => r.nullable || matchesPref (r.deriv c) cs

/-- Auxiliary for `re_search`: try to match at each start position in turn. -/
def searchFrom : Regex → List Char → Bool
  | r, [] => r.nullable
  | r, c :: cs => matchesPref r (c :: cs) || searchFrom r cs

/-- `re.search(pattern, s)`: the pattern matches somewhere within `s`
(substring-search semantics, not anchored). -/
def re_search (r : Regex) (s : String) : Bool :=
  searchFrom r s.data

/-! ## Schemas and type matching (`validate_codex.py`) -/

/-- A schema's `type` entry: a single type name string or a list of names. -/
inductive TypeDecl : Type where
  | one (name : String) : TypeDecl
  | many (names : List String) : TypeDecl

/-- Python truthiness of the `type` entry (`if type_decl:`): the empty string
and the empty list are falsy. -/
def TypeDecl.truthy : TypeDecl → Bool
  | .one s => s != ""
  | .many l => !l.isEmpty

/-- `[type_decl] if isinstance(type_decl, str) else list(type_decl)`. -/
def TypeDecl.expected : TypeDecl → List String
  | .one s => [s]
  | .many l => l

/-- One iteration of the `type_matches` loop: does `value` satisfy the type
name `kind`?  Note the source excludes bools from "integer"/"number" with
`not isinstance(value, bool)`; here `Json.bool` is a separate constructor. -/
def kindMatches (kind : String) (value : Json) : Bool :=
  (kind == "object" && (match value with | .obj _ => true | _ => false)) ||
  (kind == "array" && (match value with | .arr _ => true | _ => false)) ||
  (kind == "string" && (match value with | .str _ => true | _ => false)) ||
  (kind == "integer" && (match value with | .int _ => true | _ => false)) ||
  (kind == "number" && (match value with | .int _ => true | .num _ => true | _ => false)) ||
  (kind == "boolean" && (match value with | .bool _ => true | _ => false)) ||
  (kind == "null" && (match value with | .null => true | _ => false))

/-- `type_matches(value, expected)`: the loop returns on the first listed type
name the value satisfies. -/
def type_matches (value : Json) (expected : List String) : Bool :=
  expected.any fun kind => kindMatches kind value

/-- A validation issue: a path locator and a human-readable message. -/
structure ValidationIssue where
  path : String
  message : String
deriving DecidableEq

/-- A single-quote character, used when rendering Python `repr` strings. -/
def sq : String :=
  String.singleton (Char.ofNat 39)

/-- The display form of a number in a message (model of Python's rendering). -/
def ratStr (q : ℚ) : String :=
  toString q

mutual
/-- Python `repr` of a JSON-like value (model; `{value!r}` in messages). -/
def pyRepr : Json → String
  | .null => "None"
  | .bool true => "True"
  | .bool false => "False"
  | .int n => toString n
  | .num q => ratStr q
  | .str s => sq ++ s ++ sq
  | .arr xs => "[" ++ pyReprItems xs ++ "]"
  | .obj kvs => "\x7b" ++ pyReprFields kvs ++ "\x7d"

/-- Comma-separated `repr`s of list items. -/
def pyReprItems : List Json → String
  | [] => ""
  | [x] => pyRepr x
  | x :: rest => pyRepr x ++ ", " ++ pyReprItems rest

/-- Comma-separated `repr`s of dict fields. -/
def pyReprFields : List (String × Json) → String
  | [] => ""
  | [(k, v)] => sq ++ k ++ sq ++ ": " ++ pyRepr v
  | (k, v) :: rest => sq ++ k ++ sq ++ ": " ++ pyRepr v ++ ", " ++ pyReprFields rest
end

/-- Python `str` of a JSON-like value (`{value}` in messages). -/
def pyStr : Json → String
  | .str s => s
  | v => pyRepr v

/-- Python `repr` of a list of strings (`f"{expected}"` in the type message). -/
def reprStrList (l : List String) : String :=
  "[" ++ String.intercalate ", " (l.map fun s => sq ++ s ++ sq) ++ "]"

/-- `f"expected type {expected}, received {type(value).__name__}"`. -/
def typeMessage (expected : List String) (value : Json) : String :=
  "expected type " ++ (reprStrList expected ++ (", received " ++ pyTypeName value))

/-- `f"expected one of {schema['enum']}, received {value!r}"`. -/
def enumMessage (l : List Json) (value : Json) : String :=
  "expected one of " ++ (pyRepr (Json.arr l) ++ (", received " ++ pyRepr value))

/-- `f"value '{value}' does not match pattern {schema['pattern']}"`. -/
def patternMessage (raw : String) (s : String) : String :=
  "value " ++ (sq ++ (s ++ (sq ++ (" does not match pattern " ++ raw))))

/-- `f"value {value} below minimum {schema['minimum']}"`. -/
def minimumMessage (value : Json) (m : ℚ) : String :=
  "value " ++ (pyStr value ++ (" below minimum " ++ ratStr m))

/-- `f"value {value} must be greater than {schema['exclusiveMinimum']}"`. -/
def exclusiveMinimumMessage (value : Json) (m : ℚ) : String :=
  "value " ++ (pyStr value ++ (" must be greater than " ++ ratStr m))

/-- `f"expected at least {min_items} items"`. -/
def minItemsMessage (n : ℚ) : String :=
  "expected at least " ++ (ratStr n ++ " items")

/-- A schema dict, with exactly the entries `validate_schema` reads: `type`,
`enum`, `pattern` (the raw string together with the regex it denotes),
`minimum`, `exclusiveMinimum`, `required`, `properties`,
`additionalProperties` (any JSON value; only `False` is acted on), `minItems`
and `items` (only a dict-valued `items` is acted on). -/
inductive Schema : Type where
  | mk (type : Option TypeDecl)
       (enum : Option (List Json))
       (pattern : Option (String × Regex))
       (minimum : Option ℚ)
       (exclusiveMinimum : Option ℚ)
       (required : List String)
       (properties : List (String × Schema))
       (additionalProperties : Option Json)
       (minItems : Option ℚ)
       (items : Option Schema) : Schema

def Schema.type : Schema → Option TypeDecl
  | .mk t _ _ _ _ _ _ _ _ _ => t

def Schema.enum : Schema → Option (List Json)
  | .mk _ e _ _ _ _ _ _ _ _ => e

def Schema.pattern : Schema → Option (String × Regex)
  | .mk _ _ p _ _ _ _ _ _ _ => p

def Schema.minimum : Schema → Option ℚ
  | .mk _ _ _ m _ _ _ _ _ _ => m

def Schema.exclusiveMinimum : Schema → Option ℚ
  | .mk _ _ _ _ em _ _ _ _ _ => em

def Schema.required : Schema → List String
  | .mk _ _ _ _ _ r _ _ _ _ => r

def Schema.properties : Schema → List (String × Schema)
  | .mk _ _ _ _ _ _ p _ _ _ => p

def Schema.additionalProperties : Schema → Option Json
  | .mk _ _ _ _ _ _ _ a _ _ => a

def Schema.minItems : Schema → Option ℚ
  | .mk _ _ _ _ _ _ _ _ mi _ => mi

def Schema.items : Schema → Option Schema
  | .mk _ _ _ _ _ _ _ _ _ it => it

/-- The expected list for the type message (`expected` in the source). -/
def schemaExpected (schema : Schema) : List String :=
  match schema.type with
  | some td => td.expected
  | none => []

/-- `if type_decl:` followed by `if not type_matches(value, expected)`:
true exactly when a truthy type declaration rejects the value. -/
def typeFailCheck (value : Json) (schema : Schema) : Bool :=
  match schema.type with
  | some td => td.truthy && !type_matches value td.expected
  | none => false

/-- Is a truthy type declaration present (`not schema_type` is the negation)? -/
def typeDeclTruthy (schema : Schema) : Bool :=
  match schema.type with
  | some td => td.truthy
  | none => false

/-- `schema_type == "object" or (not schema_type and isinstance(value, dict))`:
note the left comparison is string equality, so a list-valued `type` never
takes the object branch. -/
def isObjBranch (schema : Schema) (value : Json) : Bool :=
  (match schema.type with | some (.one s) => s == "object" | _ => false) ||
  (!typeDeclTruthy schema && (match value with | .obj _ => true | _ => false))

/-- `schema_type == "array" or (not schema_type and isinstance(value, list))`. -/
def isArrBranch (schema : Schema) (value : Json) : Bool :=
  (match schema.type with | some (.one s) => s == "array" | _ => false) ||
  (!typeDeclTruthy schema && (match value with | .arr _ => true | _ => false))

/-- The `enum` check (`value not in schema["enum"]`). -/
def enumIssues (value : Json) (schema : Schema) (path : String) : List ValidationIssue :=
  match schema.enum with
  | some l => if !pyMem value l then [⟨path, enumMessage l value⟩] else []
  | none => []

/-- The `pattern` check: only string values, via `re.search`. -/
def patternIssues (value : Json) (schema : Schema) (path : String) : List ValidationIssue :=
  match schema.pattern, value with
  | some (raw, r), .str s => if !re_search r s then [⟨path, patternMessage raw s⟩] else []
  | _, _ => []

/-- The `minimum` check: non-bool numeric values strictly below the bound. -/
def minimumIssues (value : Json) (schema : Schema) (path : String) : List ValidationIssue :=
  match schema.minimum, numNotBool value with
  | some m, some q => if q < m then [⟨path, minimumMessage value m⟩] else []
  | _, _ => []

/-- The `exclusiveMinimum` check: non-bool numeric values at or below the bound. -/
def exclusiveMinimumIssues (value : Json) (schema : Schema) (path : String) : List ValidationIssue :=
  match schema.exclusiveMinimum, numNotBool value with
  | some m, some q => if q ≤ m then [⟨path, exclusiveMinimumMessage value m⟩] else []
  | _, _ => []

/-- The `required` loop: one issue at `path.key` per absent required key. -/
def requiredIssues (req : List String) (kvs : List (String × Json)) (path : String) :
    List ValidationIssue :=
  (req.filter fun k => !hasKeyJ k kvs).map fun k =>
    ⟨path ++ "." ++ k, "missing required property"⟩

/-- The `additionalProperties` check: only when the entry is exactly `False`,
one issue at `path.key` per value key outside `properties`. -/
def additionalIssues (schema : Schema) (kvs : List (String × Json)) (path : String) :
    List ValidationIssue :=
  match schema.additionalProperties with
  | some (.bool false) =>
    ((kvs.map Prod.fst).filter fun k => !(schema.properties.map Prod.fst).contains k).map
      fun k => ⟨path ++ "." ++ k, "additional properties are not allowed"⟩
  | _ => []

/-- The `minItems` check on array values. -/
def minItemsIssues (schema : Schema) (xs : List Json) (path : String) : List ValidationIssue :=
  match schema.minItems with
  | some n => if (xs.length : ℚ) < n then [⟨path, minItemsMessage n⟩] else []
  | none => []

theorem sizeOf_lookupJ {k : String} {kvs : List (String × Json)} {v : Json}
    (h : lookupJ k kvs = some v) : sizeOf v < sizeOf kvs := by
  induction kvs with
  | nil => simp [lookupJ] at h
  | cons head rest ih =>
    obtain ⟨k', w⟩ := head
    by_cases hk : k' = k
    · simp only [lookupJ, if_pos hk, Option.some.injEq] at h
      subst h
      simp only [List.cons.sizeOf_spec, Prod.mk.sizeOf_spec]
      omega
    · simp only [lookupJ, if_neg hk] at h
      have := ih h
      simp only [List.cons.sizeOf_spec, Prod.mk.sizeOf_spec]
      omega

theorem sizeOf_properties_lt (schema : Schema) : sizeOf schema.properties < sizeOf schema := by
  cases schema
  simp only [Schema.properties, Schema.mk.sizeOf_spec]
  omega

theorem sizeOf_items_lt {schema isch : Schema} (h : schema.items = some isch) :
    sizeOf isch < sizeOf schema := by
  cases schema
  simp only [Schema.items] at h
  subst h
  simp only [Schema.mk.sizeOf_spec, Option.some.sizeOf_spec]
  omega

mutual
/-- `validate_schema(value, schema, path)`: type gate with early return, then
the enum/pattern/minimum/exclusiveMinimum checks, then the object checks
(required, nested properties, additionalProperties), then the array checks
(minItems, items), accumulating issues in encounter order. -/
def validate_schema (value : Json) (schema : Schema) (path : String) : List ValidationIssue :=
  if typeFailCheck value schema then
    [⟨path, typeMessage (schemaExpected schema) value⟩]
  else
    enumIssues value schema path ++
    patternIssues value schema path ++
    minimumIssues value schema path ++
    exclusiveMinimumIssues value schema path ++
    (match value, isObjBranch schema value with
     | .obj kvs, true =>
       requiredIssues schema.required kvs path ++
       validate_props kvs schema.properties path ++
       additionalIssues schema kvs path
     | _, _ => []) ++
    (match value, isArrBranch schema value with
     | .arr xs, true =>
       minItemsIssues schema xs path ++
       (match _hit : schema.items with
        | some isch => validate_items xs isch 0 path
        | none => [])
     | _, _ => [])
termination_by sizeOf value + sizeOf schema
decreasing_by
  · have h1 := sizeOf_properties_lt schema
    simp only [Json.obj.sizeOf_spec]
    omega
  · have h1 := sizeOf_items_lt _hit
    simp only [Json.arr.sizeOf_spec]
    omega

/-- The `for key, subschema in props.items()` loop: recursively validate the
value of each property key present in the value dict. -/
def validate_props (kvs : List (String × Json)) (props : List (String × Schema))
    (path : String) : List ValidationIssue :=
  match props with
  | [] => []
  | (k, sub) :: rest =>
    (match _hv : lookupJ k kvs with
     | some v => validate_schema v sub (path ++ "." ++ k)
     | none => []) ++ validate_props kvs rest path
termination_by sizeOf kvs + sizeOf props
decreasing_by
  · have h1 := sizeOf_lookupJ _hv
    simp only [List.cons.sizeOf_spec, Prod.mk.sizeOf_spec]
    omega
  · simp only [List.cons.sizeOf_spec, Prod.mk.sizeOf_spec]
    omega

/-- The `for index, item in enumerate(value)` loop: validate each element
against the item schema at `path[index]`, in ascending index order. -/
def validate_items (xs : List Json) (isch : Schema) (idx : Nat) (path : String) :
    List ValidationIssue :=
  match xs with
  | [] => []
  | x :: rest =>
    validate_schema x isch (path ++ "[" ++ toString idx ++ "]") ++
    validate_items rest isch (idx + 1) path
termination_by sizeOf xs + sizeOf isch
decreasing_by
  · simp only [List.cons.sizeOf_spec]
    omega
  · simp only [List.cons.sizeOf_spec]
    omega
end

/-- The dedicated ND-safe timing issue message. -/
def safetyMessage : String :=
  "must be >= 14 seconds when motionOptIn is true"

/-- `validate_node(node, schema, index)`: generic schema validation followed by
the safety rule.  `safety.get(...)` raises `AttributeError` when the `safety`
field is present but not a dict, and `sweep < 14` raises `TypeError` when
`minSweepSec` is a non-numeric, non-null value; both are modelled as the
`Except.error` branch. -/
def validate_node (node : List (String × Json)) (schema : Schema) (index : Nat) :
    Except String (List ValidationIssue) :=
  let issues := validate_schema (.obj node) schema ("node[" ++ toString index ++ "]")
  let safety := (lookupJ "safety" node).getD (.obj [])
  match safety with
  | .obj skvs =>
    if pyTruthy ((lookupJ "motionOptIn" skvs).getD .null) then
      match (lookupJ "minSweepSec" skvs).getD .null with
      | .null =>
        .ok (issues ++ [⟨"node[" ++ toString index ++ "].safety.minSweepSec", safetyMessage⟩])
      | v =>
        match numValue v with
        | some q =>
          if q < 14 then
            .ok (issues ++ [⟨"node[" ++ toString index ++ "].safety.minSweepSec", safetyMessage⟩])
          else
            .ok issues
        | none => .error "TypeError"
    else
      .ok issues
  | _ => .error "AttributeError"

/-- The per-node loop of `run_validation`: nodes that are not dicts get a
single "expected object" issue and are skipped; dict nodes go through
`validate_node`; issues accumulate in node order. -/
def validateNodes (schema : Schema) : List Json → Nat → Except String (List ValidationIssue)
  | [], _ => .ok []
  | node :: rest, index =>
    match node with
    | .obj kvs =>
      match validate_node kvs schema index with
      | .ok issues =>
        match validateNodes schema rest (index + 1) with
        | .ok more => .ok (issues ++ more)
        | .error e => .error e
      | .error e => .error e
    | _ =>
      match validateNodes schema rest (index + 1) with
      | .ok more =>
        .ok (⟨"node[" ++ toString index ++ "]", "expected object"⟩ :: more)
      | .error e => .error e

/-- `payload.get("nodes")` when it is a list (`.get` of a missing key gives
`None`, which is not a list); `none` for a missing or non-list entry. -/
def nodesOf (payload : Json) : Option (List Json) :=
  match payload with
  | .obj pkvs =>
    match (lookupJ "nodes" pkvs).getD .null with
    | .arr l => some l
    | _ => none
  | _ => none

/-- `run_validation(data_path, schema_path)`, with the filesystem abstracted:
`pathExists` models `Path.exists`, `loadData`/`loadSchema` model `load_json`
on parseable files.  Returns the exit code and the printed lines; the
`Except.error` branch models an uncaught Python exception (e.g.
`payload.get` on a non-dict payload). -/
def run_validation (pathExists : String → Bool) (loadData : String → Json)
    (loadSchema : String → Schema) (data_path schema_path : String) :
    Except String (Nat × List String) :=
  if !pathExists data_path then
    .ok (2, ["[ERROR] Missing data bundle: " ++ data_path])
  else if !pathExists schema_path then
    .ok (2, ["[ERROR] Missing schema file: " ++ schema_path])
  else
    match loadData data_path with
    | .obj pkvs =>
      match (lookupJ "nodes" pkvs).getD .null with
      | .arr nodeList =>
        match validateNodes (loadSchema schema_path) nodeList 0 with
        | .ok issues =>
          if issues.isEmpty then
            .ok (0, ["[OK] " ++ toString nodeList.length ++
              " nodes validated against schema and safety rules."])
          else
            .ok (1, (issues.map fun i => "[FAIL] " ++ i.path ++ ": " ++ i.message) ++
              ["[ERROR] Validation failed for " ++ toString issues.length ++
                " issues across " ++ toString nodeList.length ++ " nodes."])
        | .error e => .error e
      | _ => .ok (1, ["[ERROR] Payload missing " ++ sq ++ "nodes" ++ sq ++ " array"])
    | _ => .error "AttributeError"

/-- `REPO_ROOT / "dist" / "codex.min.json"`, as a repo-root-relative path. -/
def DEFAULT_DATA_PATH : String :=
  "dist/codex.min.json"

/-- `REPO_ROOT / "schema" / "codex-node.schema.json"`. -/
def DEFAULT_SCHEMA_PATH : String :=
  "schema/codex-node.schema.json"

/-- `argv[0] if argv else DEFAULT_DATA_PATH`. -/
def mainDataPath (argv : List String) : String :=
  match argv with
  | [] => DEFAULT_DATA_PATH
  | p :: _ => p

/-- `argv[1] if len(argv) == 2 else DEFAULT_SCHEMA_PATH`. -/
def mainSchemaPath (argv : List String) : String :=
  if argv.length == 2 then argv.getD 1 DEFAULT_SCHEMA_PATH else DEFAULT_SCHEMA_PATH

/-- `main(argv)`: usage check, then `run_validation` on the chosen paths. -/
def main (argv : List String) (pathExists : String → Bool) (loadData : String → Json)
    (loadSchema : String → Schema) : Except String (Nat × List String) :=
  if argv.length > 2 then
    .ok (2, ["Usage: python scripts/validate_codex.py [data_path] [schema_path]"])
  else
    run_validation pathExists loadData loadSchema (mainDataPath argv) (mainSchemaPath argv)

/-! ## Distinguishing messages and locating issues -/

theorem append_ne_of_ne_at (p q a b : String) (i : Nat)
    (hp : i < p.data.length) (hq : i < q.data.length)
    (hne : p.data[i]? ≠ q.data[i]?) :
    p ++ a ≠ q ++ b := by
  intro h
  apply hne
  have hd : (p ++ a).data = (q ++ b).data := by rw [h]
  rw [String.data_append, String.data_append] at hd
  calc p.data[i]? = (p.data ++ a.data)[i]? := by rw [List.getElem?_append, if_pos hp]
    _ = (q.data ++ b.data)[i]? := by rw [hd]
    _ = q.data[i]? := by rw [List.getElem?_append, if_pos hq]

theorem enumMessage_ne_patternMessage (l : List Json) (v : Json) (raw s : String) :
    enumMessage l v ≠ patternMessage raw s := by
  unfold enumMessage patternMessage
  exact append_ne_of_ne_at _ _ _ _ 0 (by decide) (by decide) (by decide)

theorem enumMessage_ne_minimumMessage (l : List Json) (v w : Json) (m : ℚ) :
    enumMessage l v ≠ minimumMessage w m := by
  unfold enumMessage minimumMessage
  exact append_ne_of_ne_at _ _ _ _ 0 (by decide) (by decide) (by decide)

theorem enumMessage_ne_exclusiveMinimumMessage (l : List Json) (v w : Json) (m : ℚ) :
    enumMessage l v ≠ exclusiveMinimumMessage w m := by
  unfold enumMessage exclusiveMinimumMessage
  exact append_ne_of_ne_at _ _ _ _ 0 (by decide) (by decide) (by decide)

theorem enumMessage_ne_minItemsMessage (l : List Json) (v : Json) (n : ℚ) :
    enumMessage l v ≠ minItemsMessage n := by
  unfold enumMessage minItemsMessage
  exact append_ne_of_ne_at _ _ _ _ 9 (by decide) (by decide) (by decide)

theorem path_of_mem_enumIssues {value : Json} {schema : Schema} {path : String}
    {i : ValidationIssue} (h : i ∈ enumIssues value schema path) : i.path = path := by
  unfold enumIssues at h
  split at h
  · split at h
    · rw [List.mem_singleton] at h
      subst h
      rfl
    · simp at h
  · simp at h

theorem path_of_mem_patternIssues {value : Json} {schema : Schema} {path : String}
    {i : ValidationIssue} (h : i ∈ patternIssues value schema path) : i.path = path := by
  unfold patternIssues at h
  split at h
  · split at h
    · rw [List.mem_singleton] at h
      subst h
      rfl
    · simp at h
  · simp at h

theorem path_of_mem_minimumIssues {value : Json} {schema : Schema} {path : String}
    {i : ValidationIssue} (h : i ∈ minimumIssues value schema path) : i.path = path := by
  unfold minimumIssues at h
  split at h
  · split at h
    · rw [List.mem_singleton] at h
      subst h
      rfl
    · simp at h
  · simp at h

theorem path_of_mem_exclusiveMinimumIssues {value : Json} {schema : Schema} {path : String}
    {i : ValidationIssue} (h : i ∈ exclusiveMinimumIssues value schema path) : i.path = path := by
  unfold exclusiveMinimumIssues at h
  split at h
  · split at h
    · rw [List.mem_singleton] at h
      subst h
      rfl
    · simp at h
  · simp at h

theorem path_of_mem_minItemsIssues {schema : Schema} {xs : List Json} {path : String}
    {i : ValidationIssue} (h : i ∈ minItemsIssues schema xs path) : i.path = path := by
  unfold minItemsIssues at h
  split at h
  · split at h
    · rw [List.mem_singleton] at h
      subst h
      rfl
    · simp at h
  · simp at h

theorem path_len_of_mem_requiredIssues {req : List String} {kvs : List (String × Json)}
    {path : String} {i : ValidationIssue} (h : i ∈ requiredIssues req kvs path) :
    path.length < i.path.length := by
  unfold requiredIssues at h
  rw [List.mem_map] at h
  obtain ⟨k, _, rfl⟩ := h
  have h1 : ("." : String).length = 1 := rfl
  simp only [String.length_append]
  omega

theorem path_len_of_mem_additionalIssues {schema : Schema} {kvs : List (String × Json)}
    {path : String} {i : ValidationIssue} (h : i ∈ additionalIssues schema kvs path) :
    path.length < i.path.length := by
  unfold additionalIssues at h
  split at h
  · rw [List.mem_map] at h
    obtain ⟨k, _, rfl⟩ := h
    have h1 : ("." : String).length = 1 := rfl
    simp only [String.length_append]
    omega
  · simp at h

theorem validate_path_len_all : ∀ fuel : Nat,
    (∀ value schema path, sizeOf value + sizeOf schema ≤ fuel →
      ∀ i ∈ validate_schema value schema path, path.length ≤ i.path.length) ∧
    (∀ kvs props path, sizeOf kvs + sizeOf props ≤ fuel →
      ∀ i ∈ validate_props kvs props path, path.length < i.path.length) ∧
    (∀ xs isch idx path, sizeOf xs + sizeOf isch ≤ fuel →
      ∀ i ∈ validate_items xs isch idx path, path.length < i.path.length) := by
  intro fuel
  induction fuel using Nat.strong_induction_on with
  | _ fuel ih =>
  refine ⟨?_, ?_, ?_⟩
  · intro value schema path hsz i hi
    unfold validate_schema at hi
    by_cases hfail : typeFailCheck value schema
    · rw [if_pos hfail, List.mem_singleton] at hi
      subst hi
      exact le_refl _
    · rw [if_neg hfail] at hi
      simp only [List.mem_append] at hi
      rcases hi with ((((h1 | h2) | h3) | h4) | h5) | h6
      · exact le_of_eq (congrArg String.length (path_of_mem_enumIssues h1).symm)
      · exact le_of_eq (congrArg String.length (path_of_mem_patternIssues h2).symm)
      · exact le_of_eq (congrArg String.length (path_of_mem_minimumIssues h3).symm)
      · exact le_of_eq (congrArg String.length (path_of_mem_exclusiveMinimumIssues h4).symm)
      · split at h5
        · next kvs _ =>
          simp only [List.mem_append] at h5
          rcases h5 with (hr | hp) | ha
          · exact le_of_lt (path_len_of_mem_requiredIssues hr)
          · have hm : sizeOf kvs + sizeOf schema.properties < fuel := by
              have := sizeOf_properties_lt schema
              simp only [Json.obj.sizeOf_spec] at hsz
              omega
            exact le_of_lt ((ih _ hm).2.1 kvs schema.properties path (le_refl _) i hp)
          · exact le_of_lt (path_len_of_mem_additionalIssues ha)
        · simp at h5
      · split at h6
        · next xs _ =>
          simp only [List.mem_append] at h6
          rcases h6 with hm | hit
          · exact le_of_eq (congrArg String.length (path_of_mem_minItemsIssues hm).symm)
          · split at hit
            · next isch hitems =>
              have hm : sizeOf xs + sizeOf isch < fuel := by
                have := sizeOf_items_lt hitems
                simp only [Json.arr.sizeOf_spec] at hsz
                omega
              exact le_of_lt ((ih _ hm).2.2 xs isch 0 path (le_refl _) i hit)
            · simp at hit
        · simp at h6
  · intro kvs props path hsz i hi
    match props with
    | [] => simp [validate_props] at hi
    | (k, sub) :: rest =>
      rw [validate_props] at hi
      simp only [List.mem_append] at hi
      rcases hi with hleft | hright
      · split at hleft
        · next v hv =>
          have hm : sizeOf v + sizeOf sub < fuel := by
            have h1 := sizeOf_lookupJ hv
            simp only [List.cons.sizeOf_spec, Prod.mk.sizeOf_spec] at hsz
            omega
          have := (ih _ hm).1 v sub (path ++ "." ++ k) (le_refl _) i hleft
          have h1 : ("." : String).length = 1 := rfl
          simp only [String.length_append] at this
          omega
        · simp at hleft
      · have hm : sizeOf kvs + sizeOf rest < fuel := by
          simp only [List.cons.sizeOf_spec, Prod.mk.sizeOf_spec] at hsz
          omega
        exact (ih _ hm).2.1 kvs rest path (le_refl _) i hright
  · intro xs isch idx path hsz i hi
    match xs with
    | [] => simp [validate_items] at hi
    | x :: rest =>
      rw [validate_items] at hi
      simp only [List.mem_append] at hi
      rcases hi with hleft | hright
      · have hm : sizeOf x + sizeOf isch < fuel := by
          simp only [List.cons.sizeOf_spec] at hsz
          omega
        have := (ih _ hm).1 x isch (path ++ "[" ++ toString idx ++ "]") (le_refl _) i hleft
        have h1 : ("[" : String).length = 1 := rfl
        have h2 : ("]" : String).length = 1 := rfl
        simp only [String.length_append] at this
        omega
      · have hm : sizeOf rest + sizeOf isch < fuel := by
          simp only [List.cons.sizeOf_spec] at hsz
          omega
        exact (ih _ hm).2.2 rest isch (idx + 1) path (le_refl _) i hright

theorem validate_schema_path_le {value : Json} {schema : Schema} {path : String}
    {i : ValidationIssue} (hi : i ∈ validate_schema value schema path) :
    path.length ≤ i.path.length :=
  (validate_path_len_all _).1 value schema path (le_refl _) i hi

theorem validate_props_path_lt {kvs : List (String × Json)} {props : List (String × Schema)}
    {path : String} {i : ValidationIssue} (hi : i ∈ validate_props kvs props path) :
    path.length < i.path.length :=
  (validate_path_len_all _).2.1 kvs props path (le_refl _) i hi

theorem validate_items_path_lt {xs : List Json} {isch : Schema} {idx : Nat} {path : String}
    {i : ValidationIssue} (hi : i ∈ validate_items xs isch idx path) :
    path.length < i.path.length :=
  (validate_path_len_all _).2.2 xs isch idx path (le_refl _) i hi

/-- Any issue of `validate_schema` located exactly at `path` comes from the
type gate or one of the non-recursive checks at this level. -/
theorem validate_mem_at_path {value : Json} {schema : Schema} {path : String}
    {i : ValidationIssue} (hmem : i ∈ validate_schema value schema path)
    (hpath : i.path = path) :
    (typeFailCheck value schema = true ∧
      i = ⟨path, typeMessage (schemaExpected schema) value⟩) ∨
    i ∈ enumIssues value schema path ∨
    i ∈ patternIssues value schema path ∨
    i ∈ minimumIssues value schema path ∨
    i ∈ exclusiveMinimumIssues value schema path ∨
    (∃ xs, value = Json.arr xs ∧ i ∈ minItemsIssues schema xs path) := by
  unfold validate_schema at hmem
  by_cases hfail : typeFailCheck value schema
  · rw [if_pos hfail, List.mem_singleton] at hmem
    exact Or.inl ⟨hfail, hmem⟩
  · rw [if_neg hfail] at hmem
    simp only [List.mem_append] at hmem
    rcases hmem with ((((h1 | h2) | h3) | h4) | h5) | h6
    · exact Or.inr (Or.inl h1)
    · exact Or.inr (Or.inr (Or.inl h2))
    · exact Or.inr (Or.inr (Or.inr (Or.inl h3)))
    · exact Or.inr (Or.inr (Or.inr (Or.inr (Or.inl h4))))
    · exfalso
      split at h5
      · simp only [List.mem_append] at h5
        rcases h5 with (hr | hp) | ha
        · have := path_len_of_mem_requiredIssues hr
          rw [hpath] at this
          omega
        · have := validate_props_path_lt hp
          rw [hpath] at this
          omega
        · have := path_len_of_mem_additionalIssues ha
          rw [hpath] at this
          omega
      · simp at h5
    · split at h6
      · next xs _ =>
        simp only [List.mem_append] at h6
        rcases h6 with hm | hit
        · exact Or.inr (Or.inr (Or.inr (Or.inr (Or.inr ⟨xs, rfl, hm⟩))))
        · exfalso
          split at hit
          · have := validate_items_path_lt hit
            rw [hpath] at this
            omega
          · simp at hit
      · simp at h6

theorem typeFail_false_of_objBranch {schema : Schema} {kvs : List (String × Json)}
    (hobj : isObjBranch schema (Json.obj kvs) = true) :
    typeFailCheck (Json.obj kvs) schema = false := by
  unfold isObjBranch typeDeclTruthy at hobj
  unfold typeFailCheck
  rcases hT : schema.type with _ | td
  · rfl
  · rw [hT] at hobj
    rcases td with s | l
    · by_cases hs : s = "object"
      · subst hs
        simp [TypeDecl.truthy, TypeDecl.expected, type_matches, kindMatches]
      · simp [hs] at hobj
        simp [hobj]
    · simp at hobj
      simp [hobj]

theorem typeFail_false_of_arrBranch {schema : Schema} {xs : List Json}
    (harr : isArrBranch schema (Json.arr xs) = true) :
    typeFailCheck (Json.arr xs) schema = false := by
  unfold isArrBranch typeDeclTruthy at harr
  unfold typeFailCheck
  rcases hT : schema.type with _ | td
  · rfl
  · rw [hT] at harr
    rcases td with s | l
    · by_cases hs : s = "array"
      · subst hs
        simp [TypeDecl.truthy, TypeDecl.expected, type_matches, kindMatches]
      · simp [hs] at harr
        simp [harr]
    · simp at harr
      simp [harr]


theorem mem_validate_props_of {kvs : List (String × Json)} {props : List (String × Schema)}
    {path k : String} {sub : Schema} {v : Json}
    (hmem : (k, sub) ∈ props) (hv : lookupJ k kvs = some v) :
    ∀ i ∈ validate_schema v sub (path ++ "." ++ k), i ∈ validate_props kvs props path := by
  induction props with
  | nil => simp at hmem
  | cons head rest ih =>
    intro i hi
    rcases List.mem_cons.mp hmem with heq | htail
    · subst heq
      rw [validate_props]
      rw [List.mem_append]
      left
      rw [hv]
      exact hi
    · obtain ⟨k', sub'⟩ := head
      rw [validate_props]
      rw [List.mem_append]
      right
      exact ih htail i hi

/-- C1 (amended): when the object branch fires — type declared exactly as the
string "object", or no truthy type declaration and the value is a dict — the
validator emits a missing-property issue for each absent required name,
includes all issues of recursing into each property present in both the value
and `properties`, and, when `additionalProperties` is exactly `False`, emits
an issue for every value key not listed in `properties`. -/
theorem validate_schema_object_checks (kvs : List (String × Json)) (schema : Schema)
    (path : String) (hobj : isObjBranch schema (Json.obj kvs) = true) :
    (∀ k, k ∈ schema.required → hasKeyJ k kvs = false →
      (⟨path ++ "." ++ k, "missing required property"⟩ : ValidationIssue) ∈
        validate_schema (Json.obj kvs) schema path) ∧
    (∀ k sub v, (k, sub) ∈ schema.properties → lookupJ k kvs = some v →
      ∀ i ∈ validate_schema v sub (path ++ "." ++ k),
        i ∈ validate_schema (Json.obj kvs) schema path) ∧
    (schema.additionalProperties = some (Json.bool false) →
      ∀ k, k ∈ kvs.map Prod.fst → (schema.properties.map Prod.fst).contains k = false →
        (⟨path ++ "." ++ k, "additional properties are not allowed"⟩ : ValidationIssue) ∈
          validate_schema (Json.obj kvs) schema path) := by
  have hfail := typeFail_false_of_objBranch hobj
  have hbody : ∀ j : ValidationIssue,
      j ∈ requiredIssues schema.required kvs path ++
        validate_props kvs schema.properties path ++
        additionalIssues schema kvs path →
      j ∈ validate_schema (Json.obj kvs) schema path := by
    intro j hj
    rw [validate_schema, if_neg (by simp [hfail])]
    simp only [List.mem_append]
    left
    right
    rw [List.mem_append, List.mem_append] at hj
    exact hj
    exact hobj
  refine ⟨?_, ?_, ?_⟩
  · intro k hk hkey
    apply hbody
    simp only [List.mem_append]
    left
    left
    unfold requiredIssues
    rw [List.mem_map]
    exact ⟨k, List.mem_filter.mpr ⟨hk, by simp [hkey]⟩, rfl⟩
  · intro k sub v hksub hv i hi
    apply hbody
    simp only [List.mem_append]
    left
    right
    exact mem_validate_props_of hksub hv i hi
  · intro hadd k hk hcont
    apply hbody
    simp only [List.mem_append]
    right
    unfold additionalIssues
    rw [hadd]
    rw [List.mem_map]
    exact ⟨k, List.mem_filter.mpr ⟨hk, by rw [hcont]; rfl⟩, rfl⟩


/-- Schema `{"type": ["object"], "required": ["a"]}`. -/
def listTypeObjSchema : Schema :=
  .mk (some (.many ["object"])) none none none none ["a"] [] none none none

/-- C1 counterexample: with `type` declared as the list `["object"]` (so
"object" is a member of a declared set of acceptable types) and required key
"a" absent from the empty dict, `validate_schema` emits no issue at all: the
object checks are skipped because the source compares `schema_type ==
"object"` on the raw declaration. -/
theorem required_check_skipped_for_list_type_decl :
    listTypeObjSchema.required = ["a"] ∧ hasKeyJ "a" [] = false ∧
    validate_schema (Json.obj []) listTypeObjSchema "$" = [] := by
  refine ⟨rfl, rfl, ?_⟩
  simp [validate_schema, typeFailCheck, listTypeObjSchema, Schema.type, TypeDecl.truthy,
    type_matches, kindMatches, TypeDecl.expected, enumIssues, patternIssues, minimumIssues,
    exclusiveMinimumIssues, isObjBranch, isArrBranch, typeDeclTruthy, Schema.enum,
    Schema.pattern, Schema.minimum, Schema.exclusiveMinimum, numNotBool]

/-- Schema `{"type": "object", "required": ["a"]}`, used to witness the
amended object checks. -/
def strTypeObjSchema : Schema :=
  .mk (some (.one "object")) none none none none ["a"] [] none none none

theorem validate_schema_object_checks_witness :
    (⟨"$" ++ "." ++ "a", "missing required property"⟩ : ValidationIssue) ∈
      validate_schema (Json.obj []) strTypeObjSchema "$" :=
  (validate_schema_object_checks [] strTypeObjSchema "$" rfl).1 "a" (by simp [strTypeObjSchema, Schema.required]) rfl

/-- C6: a truthy type declaration that the value fails yields exactly the one
type-mismatch issue and no further checks; booleans never satisfy "integer" or
"number", integers satisfy "number", and a value passes the type check iff it
satisfies at least one listed type name. -/
theorem validate_schema_type_mismatch_stops :
    (∀ value schema path td, schema.type = some td → td.truthy = true →
      type_matches value td.expected = false →
      validate_schema value schema path =
        [⟨path, typeMessage td.expected value⟩]) ∧
    (∀ b, type_matches (Json.bool b) ["integer"] = false ∧
      type_matches (Json.bool b) ["number"] = false) ∧
    (∀ n : ℤ, type_matches (Json.int n) ["number"] = true) ∧
    (∀ value expected, type_matches value expected = true ↔
      ∃ kind ∈ expected, kindMatches kind value = true) := by
  refine ⟨?_, ?_, ?_, ?_⟩
  · intro value schema path td hT ht hm
    have hfail : typeFailCheck value schema = true := by
      unfold typeFailCheck
      rw [hT]
      simp [ht, hm]
    have hexp : schemaExpected schema = td.expected := by
      unfold schemaExpected
      rw [hT]
    unfold validate_schema
    rw [if_pos hfail, hexp]
  · intro b
    cases b <;> exact ⟨by decide, by decide⟩
  · intro n
    simp [type_matches, kindMatches]
  · intro value expected
    simp [type_matches, List.any_eq_true]

/-- Schema `{"type": "string"}`. -/
def strOnlySchema : Schema :=
  .mk (some (.one "string")) none none none none [] [] none none none

theorem validate_schema_type_mismatch_stops_witness :
    validate_schema (Json.int 3) strOnlySchema "$" =
      [⟨"$", typeMessage (TypeDecl.one "string").expected (Json.int 3)⟩] :=
  validate_schema_type_mismatch_stops.1 (Json.int 3) strOnlySchema "$" (TypeDecl.one "string")
    rfl rfl rfl


/-- Schema `{"enum": [1]}`. -/
def intEnumSchema : Schema :=
  .mk none (some [Json.int 1]) none none none [] [] none none none

/-- C7 counterexample: the boolean `True` has a different runtime type than the
enum member `1`, yet `validate_schema` emits no enum issue, because Python's
`in` uses `==`, under which `True == 1`. -/
theorem enum_bool_accepted_against_int_enum :
    intEnumSchema.enum = some [Json.int 1] ∧
    pyTypeName (Json.bool true) ≠ pyTypeName (Json.int 1) ∧
    validate_schema (Json.bool true) intEnumSchema "$" = [] := by
  refine ⟨rfl, by decide, ?_⟩
  simp [validate_schema, typeFailCheck, intEnumSchema, Schema.type, enumIssues, Schema.enum,
    pyMem, pyEq, numValue, patternIssues, minimumIssues, exclusiveMinimumIssues,
    isObjBranch, isArrBranch, typeDeclTruthy, Schema.pattern, Schema.minimum,
    Schema.exclusiveMinimum, numNotBool]

/-- C7 (amended): when the schema declares `enum` and the type check (if any)
passed, the enum issue is emitted iff the value is not a member of the enum
under Python `==` — under which booleans compare equal to their numeric values
(`True == 1`) and ints compare equal to equal-valued floats — rather than
under type-exact equality. -/
theorem validate_schema_enum_python_eq (value : Json) (schema : Schema) (path : String)
    (l : List Json) (henum : schema.enum = some l)
    (htype : typeFailCheck value schema = false) :
    (((⟨path, enumMessage l value⟩ : ValidationIssue) ∈ validate_schema value schema path) ↔
      pyMem value l = false) ∧
    pyEq (Json.bool true) (Json.int 1) = true ∧
    pyEq (Json.int 1) (Json.num 1) = true := by
  refine ⟨?_, by decide, by decide⟩
  constructor
  · intro hmem
    rcases validate_mem_at_path hmem rfl with ⟨hfail, _⟩ | h | h | h | h | ⟨xs, hxs, h⟩
    · rw [htype] at hfail
      exact absurd hfail (by simp)
    · unfold enumIssues at h
      rw [henum] at h
      by_cases hm : pyMem value l
      · simp [hm] at h
      · simpa using hm
    · unfold patternIssues at h
      split at h
      · split at h
        · rw [List.mem_singleton] at h
          have hmsg := congrArg ValidationIssue.message h
          exact absurd hmsg (enumMessage_ne_patternMessage _ _ _ _)
        · simp at h
      · simp at h
    · unfold minimumIssues at h
      split at h
      · split at h
        · rw [List.mem_singleton] at h
          have hmsg := congrArg ValidationIssue.message h
          exact absurd hmsg (enumMessage_ne_minimumMessage _ _ _ _)
        · simp at h
      · simp at h
    · unfold exclusiveMinimumIssues at h
      split at h
      · split at h
        · rw [List.mem_singleton] at h
          have hmsg := congrArg ValidationIssue.message h
          exact absurd hmsg (enumMessage_ne_exclusiveMinimumMessage _ _ _ _)
        · simp at h
      · simp at h
    · unfold minItemsIssues at h
      split at h
      · split at h
        · rw [List.mem_singleton] at h
          have hmsg := congrArg ValidationIssue.message h
          exact absurd hmsg (enumMessage_ne_minItemsMessage _ _ _)
        · simp at h
      · simp at h
  · intro hnot
    unfold validate_schema
    rw [if_neg (by simp [htype])]
    simp only [List.mem_append]
    left; left; left; left; left
    unfold enumIssues
    rw [henum]
    simp [hnot]

/-- Schema `{"enum": ["a"]}`. -/
def strEnumSchema : Schema :=
  .mk none (some [Json.str "a"]) none none none [] [] none none none

theorem validate_schema_enum_python_eq_witness :
    ((⟨"$", enumMessage [Json.str "a"] (Json.str "b")⟩ : ValidationIssue) ∈
        validate_schema (Json.str "b") strEnumSchema "$") ↔
      pyMem (Json.str "b") [Json.str "a"] = false :=
  (validate_schema_enum_python_eq (Json.str "b") strEnumSchema "$" [Json.str "a"] rfl rfl).1

theorem rmatch_cons (r : Regex) (c : Char) (cs : List Char) :
    Regex.rmatch r (c :: cs) = Regex.rmatch (r.deriv c) cs := rfl

/-- `matchesPref` finds a match iff the regex matches some leading segment. -/
theorem matchesPref_iff (cs : List Char) : ∀ r : Regex,
    matchesPref r cs = true ↔
      ∃ mid post, cs = mid ++ post ∧ Regex.rmatch r mid = true := by
  induction cs with
  | nil =>
    intro r
    constructor
    · intro h
      exact ⟨[], [], rfl, h⟩
    · rintro ⟨mid, post, hmp, hm⟩
      have hnil : mid = [] := by
        cases mid
        · rfl
        · simp at hmp
      subst hnil
      exact hm
  | cons c cs ih =>
    intro r
    constructor
    · intro h
      unfold matchesPref at h
      rw [Bool.or_eq_true] at h
      rcases h with hn | hrest
      · exact ⟨[], c :: cs, rfl, hn⟩
      · obtain ⟨mid, post, hcs, hm⟩ := (ih (r.deriv c)).mp hrest
        refine ⟨c :: mid, post, ?_, ?_⟩
        · rw [List.cons_append, hcs]
        · rw [rmatch_cons]
          exact hm
    · rintro ⟨mid, post, hmp, hm⟩
      unfold matchesPref
      rcases mid with _ | ⟨c', mid'⟩
      · rw [List.nil_append] at hmp
        rw [Bool.or_eq_true]
        exact Or.inl hm
      · rw [List.cons_append] at hmp
        injection hmp with hc hcs
        subst hc
        rw [Bool.or_eq_true]
        refine Or.inr ?_
        exact (ih (r.deriv c)).mpr ⟨mid', post, hcs, by rw [← rmatch_cons]; exact hm⟩

/-- `searchFrom` succeeds iff the regex matches a leading segment of some
suffix. -/
theorem searchFrom_iff (cs : List Char) : ∀ r : Regex,
    searchFrom r cs = true ↔
      ∃ pre rest, cs = pre ++ rest ∧ matchesPref r rest = true := by
  induction cs with
  | nil =>
    intro r
    constructor
    · intro h
      exact ⟨[], [], rfl, h⟩
    · rintro ⟨pre, rest, hmp, hm⟩
      have hnil : pre = [] := by
        cases pre
        · rfl
        · simp at hmp
      subst hnil
      rw [List.nil_append] at hmp
      subst hmp
      exact hm
  | cons c cs ih =>
    intro r
    constructor
    · intro h
      unfold searchFrom at h
      rw [Bool.or_eq_true] at h
      rcases h with hp | hrest
      · exact ⟨[], c :: cs, rfl, hp⟩
      · obtain ⟨pre, rest, hcs, hm⟩ := (ih r).mp hrest
        exact ⟨c :: pre, rest, by rw [List.cons_append, hcs], hm⟩
    · rintro ⟨pre, rest, hmp, hm⟩
      unfold searchFrom
      rcases pre with _ | ⟨c', pre'⟩
      · rw [List.nil_append] at hmp
        subst hmp
        rw [Bool.or_eq_true]
        exact Or.inl hm
      · rw [List.cons_append] at hmp
        injection hmp with hc hcs
        subst hc
        rw [Bool.or_eq_true]
        exact Or.inr ((ih r).mpr ⟨pre', rest, hcs, hm⟩)

/-- `re.search` semantics: a match at some position within the string. -/
theorem re_search_iff (r : Regex) (s : String) :
    re_search r s = true ↔
      ∃ pre mid post, s.data = pre ++ mid ++ post ∧ Regex.rmatch r mid = true := by
  unfold re_search
  rw [searchFrom_iff]
  constructor
  · rintro ⟨pre, rest, h1, h2⟩
    obtain ⟨mid, post, hrest, hm⟩ := (matchesPref_iff rest r).mp h2
    refine ⟨pre, mid, post, ?_, hm⟩
    rw [h1, hrest, List.append_assoc]
  · rintro ⟨pre, mid, post, h1, h2⟩
    refine ⟨pre, mid ++ post, ?_, ?_⟩
    · rw [h1, List.append_assoc]
    · exact (matchesPref_iff (mid ++ post) r).mpr ⟨mid, post, rfl, h2⟩

/-- C10: for a schema declaring `pattern` and a string value passing the type
check (if any), the pattern issue is emitted iff the regex matches at no
position within the string (substring-search semantics, not an anchored
full-string match); values that are not strings are never checked against
`pattern`. -/
theorem validate_schema_pattern_substring_search (schema : Schema) (path raw : String)
    (r : Regex) (hpat : schema.pattern = some (raw, r)) :
    (∀ s, typeFailCheck (Json.str s) schema = false →
      (((⟨path, patternMessage raw s⟩ : ValidationIssue) ∈
          validate_schema (Json.str s) schema path) ↔
        ¬ ∃ pre mid post, s.data = pre ++ mid ++ post ∧ Regex.rmatch r mid = true)) ∧
    (∀ value, (match value with | Json.str _ => true | _ => false) = false →
      patternIssues value schema path = []) := by
  constructor
  · intro s htype
    constructor
    · intro hmem
      rw [← re_search_iff]
      rcases validate_mem_at_path hmem rfl with ⟨hfail, _⟩ | h | h | h | h | ⟨xs, hxs, h⟩
      · rw [htype] at hfail
        exact absurd hfail (by simp)
      · exfalso
        unfold enumIssues at h
        split at h
        · split at h
          · rw [List.mem_singleton] at h
            have hmsg := congrArg ValidationIssue.message h
            exact absurd hmsg.symm (enumMessage_ne_patternMessage _ _ _ _)
          · simp at h
        · simp at h
      · unfold patternIssues at h
        rw [hpat] at h
        simp only [] at h
        by_cases hs : re_search r s
        · simp [hs] at h
        · simp [hs]
      · exfalso
        simp [minimumIssues, numNotBool] at h
      · exfalso
        simp [exclusiveMinimumIssues, numNotBool] at h
      · exact absurd hxs (by simp)
    · intro hns
      have hs : re_search r s = false := by
        rw [← re_search_iff] at hns
        simpa using hns
      unfold validate_schema
      rw [if_neg (by simp [htype])]
      simp only [List.mem_append]
      left; left; left; left; right
      unfold patternIssues
      rw [hpat]
      simp [hs]
  · intro value hv
    unfold patternIssues
    split
    · next s =>
      simp at hv
    · rfl

/-- Schema `{"pattern": "x"}` with the pattern denoting the single
character x. -/
def patternXSchema : Schema :=
  .mk none none (some ("x", Regex.char 'x')) none none [] [] none none none

theorem validate_schema_pattern_substring_search_witness :
    ((⟨"$", patternMessage "x" "abc"⟩ : ValidationIssue) ∈
        validate_schema (Json.str "abc") patternXSchema "$") ↔
      ¬ ∃ pre mid post, ("abc" : String).data = pre ++ mid ++ post ∧
        Regex.rmatch (Regex.char 'x') mid = true :=
  (validate_schema_pattern_substring_search patternXSchema "$" "x" (Regex.char 'x') rfl).1
    "abc" rfl

/-- Python's `enumerate(xs)` starting at `i`: index/element pairs in order. -/
def enumFrom : Nat → List Json → List (Nat × Json)
  | _, [] => []
  | i, x :: xs => (i, x) :: enumFrom (i + 1) xs

/-- C8: issue order.  At an object level the output is the scalar checks, then
all missing-required issues (in `required` order), then the nested property
recursions (in `properties` order), then the additional-property issues; the
property loop is the in-order concatenation of the per-property results; the
array item loop is the in-order concatenation over `enumerate(value)`, whose
indexes ascend from the start index; and at an array level the output is the
scalar checks, then `minItems`, then the item recursions. -/
theorem validate_schema_issue_order :
    (∀ kvs schema path, isObjBranch schema (Json.obj kvs) = true →
      validate_schema (Json.obj kvs) schema path =
        enumIssues (Json.obj kvs) schema path ++
        patternIssues (Json.obj kvs) schema path ++
        minimumIssues (Json.obj kvs) schema path ++
        exclusiveMinimumIssues (Json.obj kvs) schema path ++
        requiredIssues schema.required kvs path ++
        validate_props kvs schema.properties path ++
        additionalIssues schema kvs path) ∧
    (∀ kvs props path, validate_props kvs props path =
      (props.map fun ks =>
        match lookupJ ks.1 kvs with
        | some v => validate_schema v ks.2 (path ++ "." ++ ks.1)
        | none => ([] : List ValidationIssue)).join) ∧
    (∀ xs isch idx path, validate_items xs isch idx path =
      ((enumFrom idx xs).map fun p =>
        validate_schema p.2 isch (path ++ "[" ++ toString p.1 ++ "]")).join) ∧
    (∀ (xs : List Json) idx, (enumFrom idx xs).map Prod.fst =
      (List.range xs.length).map (idx + ·)) ∧
    (∀ xs schema path, isArrBranch schema (Json.arr xs) = true →
      validate_schema (Json.arr xs) schema path =
        enumIssues (Json.arr xs) schema path ++
        patternIssues (Json.arr xs) schema path ++
        minimumIssues (Json.arr xs) schema path ++
        exclusiveMinimumIssues (Json.arr xs) schema path ++
        minItemsIssues schema xs path ++
        (match schema.items with
         | some isch => validate_items xs isch 0 path
         | none => [])) := by
  refine ⟨?_, ?_, ?_, ?_, ?_⟩
  · intro kvs schema path hobj
    have hfail := typeFail_false_of_objBranch hobj
    unfold validate_schema
    rw [if_neg (by simp [hfail]), hobj]
    simp [List.append_assoc]
  · intro kvs props path
    induction props with
    | nil => simp [validate_props]
    | cons head rest ih =>
      obtain ⟨k, sub⟩ := head
      rw [validate_props]
      simp [ih]
      cases hl : lookupJ k kvs <;> simp
  · intro xs isch idx path
    induction xs generalizing idx with
    | nil => simp [validate_items, enumFrom]
    | cons x rest ih =>
      rw [validate_items]
      simp [enumFrom, ih]
  · intro xs
    induction xs with
    | nil => intro idx; simp [enumFrom]
    | cons x rest ih =>
      intro idx
      simp only [enumFrom, List.map_cons, List.length_cons, List.range_succ_eq_map,
        List.map_map]
      rw [ih]
      have hfun : ((fun y => idx + y) ∘ fun y => y + 1) = fun y => (idx + 1) + y := by
        funext y
        simp [Function.comp]
        omega
      rw [hfun]
      simp
  · intro xs schema path harr
    have hfail := typeFail_false_of_arrBranch harr
    unfold validate_schema
    rw [if_neg (by simp [hfail]), harr]
    simp [List.append_assoc]
    cases hit : schema.items <;> simp

theorem validate_schema_issue_order_witness :
    validate_schema (Json.obj []) strTypeObjSchema "$" =
      enumIssues (Json.obj []) strTypeObjSchema "$" ++
      patternIssues (Json.obj []) strTypeObjSchema "$" ++
      minimumIssues (Json.obj []) strTypeObjSchema "$" ++
      exclusiveMinimumIssues (Json.obj []) strTypeObjSchema "$" ++
      requiredIssues strTypeObjSchema.required [] "$" ++
      validate_props [] strTypeObjSchema.properties "$" ++
      additionalIssues strTypeObjSchema [] "$" :=
  validate_schema_issue_order.1 [] strTypeObjSchema "$" rfl

/-- The shape of `validate_node` once `safety` is a dict and `motionOptIn` is
`True`: determined by `minSweepSec`. -/
theorem validate_node_motion_shape (node : List (String × Json)) (schema : Schema)
    (index : Nat) (skvs : List (String × Json))
    (hsafety : lookupJ "safety" node = some (Json.obj skvs))
    (hmotion : lookupJ "motionOptIn" skvs = some (Json.bool true)) :
    validate_node node schema index =
      match (lookupJ "minSweepSec" skvs).getD .null with
      | .null => Except.ok
          (validate_schema (Json.obj node) schema ("node[" ++ toString index ++ "]") ++
            [⟨"node[" ++ toString index ++ "].safety.minSweepSec", safetyMessage⟩])
      | v =>
        match numValue v with
        | some q =>
          if q < 14 then Except.ok
            (validate_schema (Json.obj node) schema ("node[" ++ toString index ++ "]") ++
              [⟨"node[" ++ toString index ++ "].safety.minSweepSec", safetyMessage⟩])
          else Except.ok
            (validate_schema (Json.obj node) schema ("node[" ++ toString index ++ "]"))
        | none => Except.error "TypeError" := by
  unfold validate_node
  rw [hsafety]
  simp only [Option.getD_some]
  rw [hmotion]
  simp [pyTruthy]

/-- C3: for a node whose `safety.motionOptIn` is `True`, `validate_node`
appends exactly one dedicated safety issue at `node[index].safety.minSweepSec`
after all generic schema issues (whatever those are) when `minSweepSec` is
absent or numerically below 14, and appends nothing when `minSweepSec` is at
least 14. -/
theorem validate_node_safety_rule (node : List (String × Json)) (schema : Schema)
    (index : Nat) (skvs : List (String × Json))
    (hsafety : lookupJ "safety" node = some (Json.obj skvs))
    (hmotion : lookupJ "motionOptIn" skvs = some (Json.bool true)) :
    (lookupJ "minSweepSec" skvs = none →
      validate_node node schema index = Except.ok
        (validate_schema (Json.obj node) schema ("node[" ++ toString index ++ "]") ++
          [⟨"node[" ++ toString index ++ "].safety.minSweepSec", safetyMessage⟩])) ∧
    (∀ v q, lookupJ "minSweepSec" skvs = some v → numValue v = some q →
      (q < 14 →
        validate_node node schema index = Except.ok
          (validate_schema (Json.obj node) schema ("node[" ++ toString index ++ "]") ++
            [⟨"node[" ++ toString index ++ "].safety.minSweepSec", safetyMessage⟩])) ∧
      (14 ≤ q →
        validate_node node schema index = Except.ok
          (validate_schema (Json.obj node) schema ("node[" ++ toString index ++ "]")))) := by
  have hshape := validate_node_motion_shape node schema index skvs hsafety hmotion
  constructor
  · intro hnone
    rw [hshape, hnone]
    rfl
  · intro v q hv hq
    rw [hshape, hv]
    simp only [Option.getD_some]
    constructor
    · intro hlt
      rcases v with _ | b | n | qq | s | xs | kvs2
      · simp [numValue] at hq
      all_goals simp [hq, hlt]
    · intro hge
      rcases v with _ | b | n | qq | s | xs | kvs2
      · simp [numValue] at hq
      all_goals simp [hq, not_lt.mpr hge]

/-- Schema `{}` (no constraints). -/
def emptySchema : Schema :=
  .mk none none none none none [] [] none none none

/-- `{"safety": {"motionOptIn": true, "minSweepSec": 5}}`. -/
def motionNode : List (String × Json) :=
  [("safety", Json.obj [("motionOptIn", Json.bool true), ("minSweepSec", Json.int 5)])]

/-- The `safety` dict of `motionNode`. -/
def motionSafety : List (String × Json) :=
  [("motionOptIn", Json.bool true), ("minSweepSec", Json.int 5)]

theorem validate_node_safety_rule_witness :
    validate_node motionNode emptySchema 0 = Except.ok
      (validate_schema (Json.obj motionNode) emptySchema ("node[" ++ toString 0 ++ "]") ++
        [⟨"node[" ++ toString 0 ++ "].safety.minSweepSec", safetyMessage⟩]) :=
  ((validate_node_safety_rule motionNode emptySchema 0 motionSafety rfl rfl).2
    (Json.int 5) 5 rfl (by norm_num [numValue])).1 (by norm_num)

/-- C2: the per-node pass is not exception-free on malformed content: a node
whose `safety` field is a non-dict raises `AttributeError` (`safety.get`), and
a `motionOptIn`-true node whose `minSweepSec` is a string raises `TypeError`
(`sweep < 14`), instead of reporting issues. -/
theorem validate_node_raises_on_malformed_safety :
    validate_node [("safety", Json.str "calm")] emptySchema 0 =
      Except.error "AttributeError" ∧
    validate_node [("safety", Json.obj [("motionOptIn", Json.bool true),
        ("minSweepSec", Json.str "soon")])] emptySchema 0 =
      Except.error "TypeError" := by
  constructor
  · simp [validate_node, lookupJ]
  · simp [validate_node, lookupJ, pyTruthy, numValue]

/-- C4: when the process terminates normally, the exit code is 0 iff every
node validated with zero accumulated issues; 1 iff the loaded document's
`nodes` entry is missing or not an array, or at least one per-node issue was
accumulated; 2 iff a required file is missing (data path checked before the
schema path, witnessed by the printed message) or more than two positional
arguments were given. -/
theorem main_exit_codes (argv : List String) (pathExists : String → Bool)
    (loadData : String → Json) (loadSchema : String → Schema) (code : Nat)
    (out : List String)
    (h : main argv pathExists loadData loadSchema = Except.ok (code, out)) :
    (code = 2 ↔ (2 < argv.length ∨ pathExists (mainDataPath argv) = false ∨
      pathExists (mainSchemaPath argv) = false)) ∧
    (code = 1 ↔ (argv.length ≤ 2 ∧ pathExists (mainDataPath argv) = true ∧
      pathExists (mainSchemaPath argv) = true ∧
      (nodesOf (loadData (mainDataPath argv)) = none ∨
       ∃ ns issues, nodesOf (loadData (mainDataPath argv)) = some ns ∧
         validateNodes (loadSchema (mainSchemaPath argv)) ns 0 = Except.ok issues ∧
         issues ≠ []))) ∧
    (code = 0 ↔ (argv.length ≤ 2 ∧ pathExists (mainDataPath argv) = true ∧
      pathExists (mainSchemaPath argv) = true ∧
      ∃ ns, nodesOf (loadData (mainDataPath argv)) = some ns ∧
        validateNodes (loadSchema (mainSchemaPath argv)) ns 0 = Except.ok [])) ∧
    (2 < argv.length →
      out = ["Usage: python scripts/validate_codex.py [data_path] [schema_path]"]) ∧
    (argv.length ≤ 2 → pathExists (mainDataPath argv) = false →
      out = ["[ERROR] Missing data bundle: " ++ mainDataPath argv]) ∧
    (argv.length ≤ 2 → pathExists (mainDataPath argv) = true →
      pathExists (mainSchemaPath argv) = false →
      out = ["[ERROR] Missing schema file: " ++ mainSchemaPath argv]) := by
  unfold main at h
  by_cases hlen : argv.length > 2
  · rw [if_pos hlen] at h
    rw [Except.ok.injEq, Prod.mk.injEq] at h
    obtain ⟨hc, ho⟩ := h
    subst hc
    subst ho
    refine ⟨?_, ?_, ?_, ?_, ?_, ?_⟩
    · simp [hlen]
    · constructor
      · intro hx; exact absurd hx (by decide)
      · rintro ⟨hle, -⟩; exact absurd hlen (by omega)
    · constructor
      · intro hx; exact absurd hx (by decide)
      · rintro ⟨hle, -⟩; exact absurd hlen (by omega)
    · intro _; rfl
    · intro hle; exact absurd hlen (by omega)
    · intro hle; exact absurd hlen (by omega)
  · rw [if_neg hlen] at h
    unfold run_validation at h
    split at h
    next hc1 =>
      have hd : pathExists (mainDataPath argv) = false := by simpa using hc1
      rw [Except.ok.injEq, Prod.mk.injEq] at h
      obtain ⟨hc, ho⟩ := h
      subst hc
      subst ho
      refine ⟨?_, ?_, ?_, ?_, ?_, ?_⟩
      · simp [hd]
      · constructor
        · intro hx; exact absurd hx (by decide)
        · rintro ⟨-, hdt, -⟩; rw [hd] at hdt; exact absurd hdt (by simp)
      · constructor
        · intro hx; exact absurd hx (by decide)
        · rintro ⟨-, hdt, -⟩; rw [hd] at hdt; exact absurd hdt (by simp)
      · intro h2l; exact absurd h2l hlen
      · intro _ _; rfl
      · intro _ hdt; rw [hd] at hdt; exact absurd hdt (by simp)
    next hc1 =>
      have hd : pathExists (mainDataPath argv) = true := by simpa using hc1
      split at h
      next hc2 =>
        have hs : pathExists (mainSchemaPath argv) = false := by simpa using hc2
        rw [Except.ok.injEq, Prod.mk.injEq] at h
        obtain ⟨hc, ho⟩ := h
        subst hc
        subst ho
        refine ⟨?_, ?_, ?_, ?_, ?_, ?_⟩
        · simp [hs]
        · constructor
          · intro hx; exact absurd hx (by decide)
          · rintro ⟨-, -, hst, -⟩; rw [hs] at hst; exact absurd hst (by simp)
        · constructor
          · intro hx; exact absurd hx (by decide)
          · rintro ⟨-, -, hst, -⟩; rw [hs] at hst; exact absurd hst (by simp)
        · intro h2l; exact absurd h2l hlen
        · intro _ hdf; rw [hd] at hdf; exact absurd hdf (by simp)
        · intro _ _ _; rfl
      next hc2 =>
        have hs : pathExists (mainSchemaPath argv) = true := by simpa using hc2
        split at h
        · next pkvs hld =>
          split at h
          · next nodeList hn =>
            split at h
            · next issues hvn =>
              have hno : nodesOf (loadData (mainDataPath argv)) = some nodeList := by
                simp [nodesOf, hld, hn]
              by_cases hie : issues.isEmpty = true
              · rw [if_pos hie] at h
                rw [Except.ok.injEq, Prod.mk.injEq] at h
                obtain ⟨hc, ho⟩ := h
                subst hc
                subst ho
                have hempty : issues = [] := List.isEmpty_iff.mp hie
                refine ⟨?_, ?_, ?_, ?_, ?_, ?_⟩
                · constructor
                  · intro hx; exact absurd hx (by decide)
                  · rintro (hx | hx | hx)
                    · exact absurd hx hlen
                    · rw [hd] at hx; exact absurd hx (by simp)
                    · rw [hs] at hx; exact absurd hx (by simp)
                · constructor
                  · intro hx; exact absurd hx (by decide)
                  · rintro ⟨-, -, -, hnone | ⟨ns, issues2, hns, hv2, hne⟩⟩
                    · rw [hno] at hnone; exact absurd hnone (by simp)
                    · rw [hno] at hns
                      rw [Option.some.injEq] at hns
                      subst hns
                      rw [hvn] at hv2
                      rw [Except.ok.injEq] at hv2
                      subst hv2
                      exact absurd hempty hne
                · constructor
                  · intro _
                    exact ⟨by omega, hd, hs, nodeList, hno, hempty ▸ hvn⟩
                  · intro _; rfl
                · intro h2l; exact absurd h2l hlen
                · intro _ hdf; rw [hd] at hdf; exact absurd hdf (by simp)
                · intro _ _ hsf; rw [hs] at hsf; exact absurd hsf (by simp)
              · rw [if_neg hie] at h
                rw [Except.ok.injEq, Prod.mk.injEq] at h
                obtain ⟨hc, ho⟩ := h
                subst hc
                subst ho
                have hne : issues ≠ [] := by
                  intro hx
                  rw [hx] at hie
                  exact hie rfl
                refine ⟨?_, ?_, ?_, ?_, ?_, ?_⟩
                · constructor
                  · intro hx; exact absurd hx (by decide)
                  · rintro (hx | hx | hx)
                    · exact absurd hx hlen
                    · rw [hd] at hx; exact absurd hx (by simp)
                    · rw [hs] at hx; exact absurd hx (by simp)
                · constructor
                  · intro _
                    exact ⟨by omega, hd, hs, Or.inr ⟨nodeList, issues, hno, hvn, hne⟩⟩
                  · intro _; rfl
                · constructor
                  · intro hx; exact absurd hx (by decide)
                  · rintro ⟨-, -, -, ns, hns, hv2⟩
                    rw [hno] at hns
                    rw [Option.some.injEq] at hns
                    subst hns
                    rw [hvn] at hv2
                    rw [Except.ok.injEq] at hv2
                    exact absurd hv2 hne
                · intro h2l; exact absurd h2l hlen
                · intro _ hdf; rw [hd] at hdf; exact absurd hdf (by simp)
                · intro _ _ hsf; rw [hs] at hsf; exact absurd hsf (by simp)
            · next e hvn =>
              simp at h
          · next hnarr =>
            have hno : nodesOf (loadData (mainDataPath argv)) = none := by
              simp only [nodesOf, hld]
            rw [Except.ok.injEq, Prod.mk.injEq] at h
            obtain ⟨hc, ho⟩ := h
            subst hc
            subst ho
            refine ⟨?_, ?_, ?_, ?_, ?_, ?_⟩
            · constructor
              · intro hx; exact absurd hx (by decide)
              · rintro (hx | hx | hx)
                · exact absurd hx hlen
                · rw [hd] at hx; exact absurd hx (by simp)
                · rw [hs] at hx; exact absurd hx (by simp)
            · constructor
              · intro _
                exact ⟨by omega, hd, hs, Or.inl hno⟩
              · intro _; rfl
            · constructor
              · intro hx; exact absurd hx (by decide)
              · rintro ⟨-, -, -, ns, hns, -⟩
                rw [hno] at hns
                exact absurd hns (by simp)
            · intro h2l; exact absurd h2l hlen
            · intro _ hdf; rw [hd] at hdf; exact absurd hdf (by simp)
            · intro _ _ hsf; rw [hs] at hsf; exact absurd hsf (by simp)
        · next hnobj =>
          simp at h

/-- Everything exists on this filesystem. -/
def allPathsExist : String → Bool := fun _ => true

/-- A data file holding `{"nodes": []}` at every path. -/
def loadEmptyNodes : String → Json := fun _ => Json.obj [("nodes", Json.arr [])]

/-- The empty schema at every path. -/
def loadEmptySchema : String → Schema := fun _ => emptySchema

theorem main_exit_codes_witness :
    (0 = 2 ↔ (2 < ([] : List String).length ∨ allPathsExist (mainDataPath []) = false ∨
      allPathsExist (mainSchemaPath []) = false)) :=
  (main_exit_codes [] allPathsExist loadEmptyNodes loadEmptySchema 0
    ["[OK] 0 nodes validated against schema and safety rules."] (by rfl)).1

end Codex
